import Mathlib

/-!
Verification of the k8s authorization webhook decision engine.

The definitions below are a shallow embedding of the Go sources:
the `authorizationv1` structures model the fields of
`k8s.io/api/authorization/v1.SubjectAccessReview` that the webhook reads,
`cel.Evaluator` / `cel.Evaluate` model `cel/cel.go`,
`auth.Authorizer` / `auth.ProcessRequest` model `auth/auth.go`,
`server.handleAuthorizeStatus` models the response construction in
`server/server.go`, and `main.processAuthRequest` models the standalone
`package main` variant of the webhook.
-/

namespace authorizationv1

/-- Resource-shaped attributes of a SubjectAccessReview
(`authorizationv1.ResourceAttributes`, the string fields read by the webhook). -/
structure ResourceAttributes where
  Group : String
  Version : String
  Resource : String
  Subresource : String
  Namespace : String
  Name : String
  Verb : String
deriving DecidableEq, Repr

/-- Non-resource-shaped attributes (`authorizationv1.NonResourceAttributes`). -/
structure NonResourceAttributes where
  Path : String
  Verb : String
deriving DecidableEq, Repr

/-- The spec of a SubjectAccessReview; `ResourceAttributes` and
`NonResourceAttributes` are pointers in Go, hence `Option` here. -/
structure SubjectAccessReviewSpec where
  User : String
  Groups : List String
  ResourceAttributes : Option ResourceAttributes
  NonResourceAttributes : Option NonResourceAttributes
deriving DecidableEq, Repr

/-- A SubjectAccessReview request (only `Spec` is read by the webhook). -/
structure SubjectAccessReview where
  Spec : SubjectAccessReviewSpec
deriving DecidableEq, Repr

/-- The status block of the SubjectAccessReview response. -/
structure SubjectAccessReviewStatus where
  Allowed : Bool
  Denied : Bool
  Reason : String
deriving DecidableEq, Repr

end authorizationv1

namespace config

/-- The decision-relevant fields of `config.Config` (the webhook also carries
port and TLS file paths, which the decision engine never reads). -/
structure Config where
  ProtectedPrefix : String
  PrivilegedUser : String
deriving DecidableEq, Repr

end config

namespace cel

open authorizationv1

/-- CEL runtime values, restricted to the types that can flow through the
webhook's variable schema (`user: string`, `groups: list<string>`,
`resourceAttributes`/`nonResourceAttributes: map<string,string>`) and the
operations used on them. A Go type assertion `result.Value().(bool)` succeeds
exactly on the `bool` constructor. -/
inductive CelValue where
  | bool (b : Bool)
  | int (n : Int)
  | str (s : String)
  | strList (elems : List String)
  | strMap (entries : List (String × String))
deriving DecidableEq, Repr

/-- The activation passed to `Program.Eval` by `Evaluator.Evaluate`:
`user` and `groups` are always bound; `resourceAttributes` and
`nonResourceAttributes` are inserted into the `vars` map only when the
corresponding block is non-nil on the request (cel/cel.go, `Evaluate`),
hence `Option` — `none` means the key is absent from the map. -/
structure Activation where
  user : String
  groups : List String
  resourceAttributes : Option (List (String × String))
  nonResourceAttributes : Option (List (String × String))
deriving DecidableEq, Repr

/-- A compiled CEL program, as the evaluator uses it: a function from the
activation to either a runtime evaluation error or a value
(`program.Eval(vars)` returning `(ref.Val, _, err)`). -/
def Program : Type := Activation → Except String CelValue

/-- Model of `cel.Evaluator`: the ordered list of compiled programs.
The `env` field of the Go struct is only used at compilation time. -/
structure Evaluator where
  programs : List Program

/-- The variable bindings built by `Evaluator.Evaluate` (cel/cel.go lines
113-140): `user` and `groups` always; the attribute maps, with exactly the
keys `group, version, resource, name, namespace, verb, subresource`
(resp. `path, verb`), only when the block is present on the request. -/
def mkVars (sar : SubjectAccessReview) : Activation where
  user := sar.Spec.User
  groups := sar.Spec.Groups
  resourceAttributes :=
    sar.Spec.ResourceAttributes.map (fun ra =>
      [("group", ra.Group), ("version", ra.Version), ("resource", ra.Resource),
       ("name", ra.Name), ("namespace", ra.Namespace), ("verb", ra.Verb),
       ("subresource", ra.Subresource)])
  nonResourceAttributes :=
    sar.Spec.NonResourceAttributes.map (fun nra =>
      [("path", nra.Path), ("verb", nra.Verb)])

/-- The rule loop of `Evaluator.Evaluate` (cel/cel.go lines 142-159):
evaluate each program in order with its 0-based index; an evaluation error,
a non-boolean result, or a `false` result halts immediately with the
corresponding index-qualified denial reason. -/
def evalPrograms (vars : Activation) : List Program → Nat → Bool × String
  | [], _ => (true, "Request allowed by CEL rules")
  | program :: rest, i =>
    match program vars with
    | Except.error _ => (false, "Error evaluating CEL rule " ++ toString i)
    | Except.ok result =>
      match result with
      | CelValue.bool allowed =>
        if allowed then evalPrograms vars rest (i + 1)
        else (false, "Request denied by CEL rule " ++ toString i)
      | _ => (false, "Invalid result from CEL rule " ++ toString i)

/-- Model of `Evaluator.Evaluate`: with no compiled rules, allow with
"No CEL rules configured"; otherwise run the rule loop over the bindings. -/
def Evaluate (e : Evaluator) (sar : SubjectAccessReview) : Bool × String :=
  if e.programs.length = 0 then (true, "No CEL rules configured")
  else evalPrograms (mkVars sar) e.programs 0

/-- Expressions of the CEL fragment needed here: variable references,
integer literals, `size(...)`, and equality. -/
inductive CelExpr where
  | varName (n : String)
  | intLit (n : Int)
  | size (e : CelExpr)
  | eqExpr (a b : CelExpr)
deriving DecidableEq, Repr

/-- Modelled from the cel-go runtime (the expression-evaluation library this
repository depends on, not part of the repository itself): resolution of a
top-level variable against the activation map passed to `Program.Eval`.
A declared variable that has no binding in the activation resolves to a
missing-attribute error ("no such attribute"), not to any default value;
this is cel-go's attribute-resolution behavior for non-partial activations. -/
def lookupVar (vars : Activation) : String → Except String CelValue
  | "user" => Except.ok (CelValue.str vars.user)
  | "groups" => Except.ok (CelValue.strList vars.groups)
  | "resourceAttributes" =>
    match vars.resourceAttributes with
    | some m => Except.ok (CelValue.strMap m)
    | none => Except.error "no such attribute(s): resourceAttributes"
  | "nonResourceAttributes" =>
    match vars.nonResourceAttributes with
    | some m => Except.ok (CelValue.strMap m)
    | none => Except.error "no such attribute(s): nonResourceAttributes"
  | n => Except.error ("no such attribute(s): " ++ n)

/-- Modelled from the cel-go runtime: evaluation of the expression fragment
above. `size` on a map, list or string yields its length; `==` compares
values; errors propagate. -/
def evalCel (vars : Activation) : CelExpr → Except String CelValue
  | CelExpr.varName n => lookupVar vars n
  | CelExpr.intLit n => Except.ok (CelValue.int n)
  | CelExpr.size e =>
    match evalCel vars e with
    | Except.ok (CelValue.strMap m) => Except.ok (CelValue.int m.length)
    | Except.ok (CelValue.strList l) => Except.ok (CelValue.int l.length)
    | Except.ok (CelValue.str s) => Except.ok (CelValue.int s.length)
    | Except.ok _ => Except.error "size: no such overload"
    | Except.error msg => Except.error msg
  | CelExpr.eqExpr a b =>
    match evalCel vars a, evalCel vars b with
    | Except.ok va, Except.ok vb => Except.ok (CelValue.bool (va = vb))
    | Except.error msg, _ => Except.error msg
    | _, Except.error msg => Except.error msg

/-- The compiled program of an expression of the modelled fragment. -/
def celProgram (e : CelExpr) : Program := fun vars => evalCel vars e

/-- The expression `size(resourceAttributes) == 0`: a well-typed rule over
the declared schema that references the `resourceAttributes` variable.
Under an empty-map binding it evaluates to `true`. -/
def ruleSizeRA : CelExpr :=
  CelExpr.eqExpr (CelExpr.size (CelExpr.varName "resourceAttributes")) (CelExpr.intLit 0)

/-- The expression `size(nonResourceAttributes) == 0`: a well-typed rule
that references the `nonResourceAttributes` variable. -/
def ruleSizeNRA : CelExpr :=
  CelExpr.eqExpr (CelExpr.size (CelExpr.varName "nonResourceAttributes")) (CelExpr.intLit 0)

/-- Whether an expression of the modelled fragment references the variable
named `n`. -/
def mentionsVar : CelExpr → String → Bool
  | CelExpr.varName m, n => m == n
  | CelExpr.intLit _, _ => false
  | CelExpr.size e, n => mentionsVar e n
  | CelExpr.eqExpr a b, n => mentionsVar a n || mentionsVar b n

/-- Modelled from the spec's words, for comparison with `mkVars` (which is
translated from the source): "absent optional blocks bind to an empty map,
not an error" — i.e. `resourceAttributes` / `nonResourceAttributes` are
always bound, to the empty string-keyed map when the block is absent. -/
def mkVarsSpecClaim (sar : SubjectAccessReview) : Activation where
  user := sar.Spec.User
  groups := sar.Spec.Groups
  resourceAttributes :=
    some (match sar.Spec.ResourceAttributes with
      | some ra =>
        [("group", ra.Group), ("version", ra.Version), ("resource", ra.Resource),
         ("name", ra.Name), ("namespace", ra.Namespace), ("verb", ra.Verb),
         ("subresource", ra.Subresource)]
      | none => [])
  nonResourceAttributes :=
    some (match sar.Spec.NonResourceAttributes with
      | some nra => [("path", nra.Path), ("verb", nra.Verb)]
      | none => [])

/-- The compilation interface of the CEL environment created by
`createEnvironment`: `Compile` parses and type-checks one expression string
against the fixed variable schema (`env.Compile`, whose issues become an
error), and `Program` turns a checked AST into an executable program
(`env.Program`). The environment itself is built once from four static
declarations and cannot fail, so it is abstracted as this pair of
functions. -/
structure Env where
  Compile : String → Except String CelExpr
  Program : CelExpr → Except String Program

/-- The body of the `compileRules` loop for one non-empty rule:
`env.Compile` then `env.Program`, each failure wrapped with the message
that names the offending rule text (cel/cel.go lines 91-99). -/
def compileOne (env : Env) (rule : String) : Except String Program :=
  match env.Compile rule with
  | Except.error msg =>
    Except.error ("failed to compile CEL rule '" ++ rule ++ "': " ++ msg)
  | Except.ok ast =>
    match env.Program ast with
    | Except.error msg =>
      Except.error ("failed to create program for rule '" ++ rule ++ "': " ++ msg)
    | Except.ok prg => Except.ok prg

/-- Model of `compileRules` (cel/cel.go lines 83-105): iterate the rule
strings in order, silently skip empty strings, stop at the first rule that
fails to compile, otherwise collect the programs in source order. -/
def compileRules (env : Env) : List String → Except String (List Program)
  | [] => Except.ok []
  | rule :: rest =>
    if rule = "" then compileRules env rest
    else
      match compileOne env rule with
      | Except.error msg => Except.error msg
      | Except.ok prg =>
        match compileRules env rest with
        | Except.error msg => Except.error msg
        | Except.ok programs => Except.ok (prg :: programs)

/-- Model of `NewEvaluator` (cel/cel.go lines 53-68): compile the rules
against the environment; a compilation failure is wrapped and returned, and
no evaluator is produced. -/
def NewEvaluator (env : Env) (rules : List String) : Except String Evaluator :=
  match compileRules env rules with
  | Except.error msg => Except.error ("failed to compile CEL rules: " ++ msg)
  | Except.ok programs => Except.ok { programs := programs }

end cel

namespace auth

open authorizationv1

/-- Model of `auth.Authorizer`: the policy configuration and the compiled
CEL evaluator. -/
structure Authorizer where
  config : config.Config
  celEval : cel.Evaluator

/-- The condition of the indirect-impersonation guard (auth/auth.go lines
42-45): resource attributes present with the four exact field values. -/
def isMastersImpersonation : Option ResourceAttributes → Bool
  | none => false
  | some ra =>
    ra.Group == "authentication.k8s.io" && ra.Resource == "userextras" &&
      ra.Subresource == "groups" && ra.Name == "system:masters"

/-- String containment, as `strings.Contains(s, sub)`: some contiguous run
of `s`'s characters equals `sub`. -/
def containsSubstr (s sub : String) : Bool :=
  decide (sub.data <:+: s.data)

/-- String prefix test, as `strings.HasPrefix(s, pre)`. -/
def hasPrefix (pre s : String) : Bool :=
  pre.data.isPrefixOf s.data

/-- The condition of the direct-impersonation guard (auth/auth.go lines
51-52): non-resource attributes present and the path contains
"/groups/system:masters". -/
def isDirectMastersImpersonation : Option NonResourceAttributes → Bool
  | none => false
  | some nra => containsSubstr nra.Path "/groups/system:masters"

/-- The entry condition of the protected-resource delete gate (auth/auth.go
lines 57-59): resource attributes present, verb "delete", and the name
starting with the configured protected prefix. -/
def isProtectedDelete (cfg : config.Config) : Option ResourceAttributes → Bool
  | none => false
  | some ra => ra.Verb == "delete" && hasPrefix cfg.ProtectedPrefix ra.Name

/-- Model of `Authorizer.ProcessRequest` (auth/auth.go lines 24-81): CEL
rules first; then the indirect impersonation guard; then the direct
impersonation guard; then the protected-resource delete gate (privileged
user, then system:masters membership, then deny); then default allow. -/
def ProcessRequest (a : Authorizer) (sar : SubjectAccessReview) : Bool × String :=
  if (cel.Evaluate a.celEval sar).1 = false then (false, (cel.Evaluate a.celEval sar).2)
  else if isMastersImpersonation sar.Spec.ResourceAttributes then
    (false, "Impersonation of system:masters group is not allowed")
  else if isDirectMastersImpersonation sar.Spec.NonResourceAttributes then
    (false, "Direct impersonation of system:masters group is not allowed")
  else if isProtectedDelete a.config sar.Spec.ResourceAttributes then
    if sar.Spec.User = a.config.PrivilegedUser then
      (true, "User '" ++ sar.Spec.User ++
        "' is authorized to delete protected resources as a privileged user")
    else if sar.Spec.Groups.contains "system:masters" then
      (true, "User '" ++ sar.Spec.User ++
        "' is authorized to delete protected resources as a member of system:masters group")
    else
      (false, "User '" ++ sar.Spec.User ++
        "' is not authorized to delete resources with prefix '" ++
        a.config.ProtectedPrefix ++ "'. Only '" ++ a.config.PrivilegedUser ++
        "' users or members of system:masters/system:nodes groups can perform this operation.")
  else (true, "Request allowed by authorization webhook")

end auth

namespace server

open authorizationv1

/-- The status block of the response built by `handleAuthorize`
(server/server.go lines 64-74): `Allowed` and `Reason` from
`ProcessRequest`, `Denied` the negation of `Allowed`. -/
def handleAuthorizeStatus (a : auth.Authorizer) (sar : SubjectAccessReview) :
    SubjectAccessReviewStatus :=
  { Allowed := (auth.ProcessRequest a sar).1,
    Denied := !(auth.ProcessRequest a sar).1,
    Reason := (auth.ProcessRequest a sar).2 }

end server

namespace webhookmain

open authorizationv1

/-- The decision-relevant fields of the standalone variant's `main.Config`. -/
structure Config where
  ProtectedPrefix : String
  PrivilegedUser : String
deriving DecidableEq, Repr

/-- Model of `processAuthRequest` of the extended standalone `package main`
variant: the (outer `Resource == "users"`, inner `Resource == "userextras"`)
impersonation check, the exact-path direct-impersonation check, then the
delete gate with a system:masters/system:nodes group bypass taking the
first matching group, and default allow. -/
def processAuthRequest (cfg : Config) (sar : SubjectAccessReview) : Bool × String :=
  if (match sar.Spec.ResourceAttributes with
      | some ra =>
        ra.Resource == "users" && (ra.Verb == "impersonate" || ra.Verb == "create") &&
          (ra.Group == "authentication.k8s.io" && ra.Resource == "userextras" &&
            ra.Subresource == "groups" && auth.containsSubstr ra.Name "system:masters")
      | none => false) then
    (false, "Impersonation of system:masters group is not allowed")
  else if (match sar.Spec.NonResourceAttributes with
      | some nra =>
        nra.Verb == "impersonate" && nra.Path == "/api/v1/users/~/groups/system:masters"
      | none => false) then
    (false, "Direct impersonation of system:masters group is not allowed")
  else
    match sar.Spec.ResourceAttributes with
    | some ra =>
      if ra.Verb == "delete" && auth.hasPrefix cfg.ProtectedPrefix ra.Name then
        match sar.Spec.Groups.find? (fun g => g == "system:masters" || g == "system:nodes") with
        | some g =>
          (true, "User '" ++ sar.Spec.User ++
            "' is authorized to delete protected resources as a member of " ++ g ++ " group")
        | none =>
          if sar.Spec.User ≠ cfg.PrivilegedUser then
            (false, "User '" ++ sar.Spec.User ++
              "' is not authorized to delete resources with prefix '" ++
              cfg.ProtectedPrefix ++ "'. Only '" ++ cfg.PrivilegedUser ++
              "' users or members of system:masters/system:nodes groups can perform this operation.")
          else (true, "Request allowed by authorization webhook")
      else (true, "Request allowed by authorization webhook")
    | none => (true, "Request allowed by authorization webhook")

end webhookmain

section Fixtures

open authorizationv1

/-- An evaluator with no compiled rules. -/
def emptyEvaluator : cel.Evaluator := { programs := [] }

/-- A program that always passes. -/
def truePrg : cel.Program := fun _ => Except.ok (cel.CelValue.bool true)

/-- A program that always evaluates to `false`. -/
def falsePrg : cel.Program := fun _ => Except.ok (cel.CelValue.bool false)

/-- A program that always raises a runtime evaluation error. -/
def errPrg : cel.Program := fun _ => Except.error "no such overload"

/-- A program that returns a non-boolean value. -/
def strPrg : cel.Program := fun _ => Except.ok (cel.CelValue.str "yes")

/-- The configuration used by the tests of the repository:
protected prefix "test-prefix-", privileged user "admin". -/
def cfgTest : config.Config :=
  { ProtectedPrefix := "test-prefix-", PrivilegedUser := "admin" }

/-- A configuration whose protected prefix is a prefix of "system:masters". -/
def cfgSystem : config.Config :=
  { ProtectedPrefix := "system:", PrivilegedUser := "admin" }

/-- Authorizer with the test configuration and no CEL rules. -/
def authTest : auth.Authorizer := { config := cfgTest, celEval := emptyEvaluator }

/-- Authorizer with the "system:" prefix configuration and no CEL rules. -/
def authSystem : auth.Authorizer := { config := cfgSystem, celEval := emptyEvaluator }

/-- Authorizer with the test configuration and one always-false CEL rule. -/
def authDenyRule : auth.Authorizer :=
  { config := cfgTest, celEval := { programs := [falsePrg] } }

/-- A request with no attribute blocks. -/
def sarPlain : SubjectAccessReview :=
  { Spec := { User := "test-user", Groups := ["test-group"],
              ResourceAttributes := none, NonResourceAttributes := none } }

/-- The indirect-impersonation resource attributes, with verb "delete":
a delete of the "resource" named "system:masters". -/
def raImpersonateDelete : ResourceAttributes :=
  { Group := "authentication.k8s.io", Version := "", Resource := "userextras",
    Subresource := "groups", Namespace := "", Name := "system:masters",
    Verb := "delete" }

/-- A request by the privileged user that satisfies both the
indirect-impersonation guard and (under `cfgSystem`) the delete gate. -/
def sarGateCex : SubjectAccessReview :=
  { Spec := { User := "admin", Groups := [],
              ResourceAttributes := some raImpersonateDelete,
              NonResourceAttributes := none } }

/-- Resource attributes of a delete of a protected resource. -/
def raNodesDelete : ResourceAttributes :=
  { Group := "", Version := "", Resource := "pods",
    Subresource := "", Namespace := "default",
    Name := "test-prefix-resource", Verb := "delete" }

/-- A delete of a protected resource by a regular user who is only in
`system:nodes`. -/
def sarNodesDelete : SubjectAccessReview :=
  { Spec := { User := "regular-user", Groups := ["system:nodes"],
              ResourceAttributes := some raNodesDelete,
              NonResourceAttributes := none } }

/-- The indirect-impersonation resource attributes with verb "create". -/
def raImpersonateCreate : ResourceAttributes :=
  { Group := "authentication.k8s.io", Version := "",
    Resource := "userextras", Subresource := "groups",
    Namespace := "", Name := "system:masters", Verb := "create" }

/-- An indirect-impersonation request by the privileged user who is also in
`system:masters`. -/
def sarImpersonatePrivileged : SubjectAccessReview :=
  { Spec := { User := "admin", Groups := ["system:masters"],
              ResourceAttributes := some raImpersonateCreate,
              NonResourceAttributes := none } }

/-- An evaluator whose rules are: pass, deny, error, non-boolean. -/
def evalMix : cel.Evaluator :=
  { programs := [truePrg, falsePrg, errPrg, strPrg] }

/-- A non-resource request whose path contains "/groups/system:masters". -/
def sarDirectImpersonate : SubjectAccessReview :=
  { Spec := { User := "admin", Groups := ["system:masters"],
              ResourceAttributes := none,
              NonResourceAttributes := some
                { Path := "/api/v1/users/~/groups/system:masters",
                  Verb := "impersonate" } } }

/-- An evaluator holding only the compiled `size(resourceAttributes) == 0`
rule. -/
def raRefEvaluator : cel.Evaluator := { programs := [cel.celProgram cel.ruleSizeRA] }

/-- An evaluator whose second rule (index 1, after a passing rule) is the
compiled `size(nonResourceAttributes) == 0`. -/
def nraRefEvaluator : cel.Evaluator :=
  { programs := [truePrg, cel.celProgram cel.ruleSizeNRA] }

/-- A compilation environment for witnesses: it accepts exactly the source
text of `ruleSizeRA` and rejects everything else. -/
def modelEnv : cel.Env :=
  { Compile := fun s =>
      if s = "size(resourceAttributes) == 0" then Except.ok cel.ruleSizeRA
      else Except.error "Syntax error: token recognition error",
    Program := fun ast => Except.ok (cel.celProgram ast) }

end Fixtures

section Helpers

/-- A concatenation whose left operand is non-empty is non-empty. -/
theorem str_append_ne_empty (s t : String) (h : s ≠ "") : s ++ t ≠ "" := by
  intro he
  apply h
  have hd := congrArg String.data he
  rw [String.data_append] at hd
  have hs : s.data = [] := (List.append_eq_nil.mp hd).1
  cases s with
  | mk d =>
    simp only [String.data] at hs
    subst hs
    rfl

/-- A string that starts with "User '" is never the indirect-impersonation
denial message. -/
theorem userReason_ne_impersonation (r : String) :
    "User '" ++ r ≠ "Impersonation of system:masters group is not allowed" := by
  intro h
  have h1 : ("User '" ++ r).data.head? = some 'U' := by
    rw [String.data_append]; rfl
  rw [h] at h1
  exact absurd h1 (by decide)

/-- Running the rule loop over a block of rules that all pass continues with
the rest of the rules, the index advanced by the length of the block. -/
theorem evalPrograms_passed (vars : cel.Activation) (pre rest : List cel.Program) :
    ∀ i : Nat, (∀ q ∈ pre, q vars = Except.ok (cel.CelValue.bool true)) →
    cel.evalPrograms vars (pre ++ rest) i = cel.evalPrograms vars rest (i + pre.length) := by
  induction pre with
  | nil => intro i _; simp
  | cons q qs ih =>
    intro i hpre
    have hq : q vars = Except.ok (cel.CelValue.bool true) :=
      hpre q (List.mem_cons_self q qs)
    have hqs : ∀ r ∈ qs, r vars = Except.ok (cel.CelValue.bool true) :=
      fun r hr => hpre r (List.mem_cons_of_mem q hr)
    rw [List.cons_append]
    simp only [cel.evalPrograms, hq]
    rw [if_true, ih (i + 1) hqs]
    congr 1
    simp only [List.length_cons]
    omega

/-- The rule loop never reports an empty reason. -/
theorem evalPrograms_reason_ne_empty (vars : cel.Activation) (l : List cel.Program)
    (i : Nat) : (cel.evalPrograms vars l i).2 ≠ "" := by
  induction l generalizing i with
  | nil => simp [cel.evalPrograms]
  | cons p rest ih =>
    simp only [cel.evalPrograms]
    cases hp : p vars with
    | error msg =>
      exact str_append_ne_empty _ _ (by decide)
    | ok v =>
      cases v with
      | bool b =>
        cases b with
        | true => simpa using ih (i + 1)
        | false => exact str_append_ne_empty _ _ (by decide)
      | int n => exact str_append_ne_empty _ _ (by decide)
      | str s => exact str_append_ne_empty _ _ (by decide)
      | strList l => exact str_append_ne_empty _ _ (by decide)
      | strMap m => exact str_append_ne_empty _ _ (by decide)

/-- The evaluator never reports an empty reason. -/
theorem evaluate_reason_ne_empty (e : cel.Evaluator)
    (sar : authorizationv1.SubjectAccessReview) : (cel.Evaluate e sar).2 ≠ "" := by
  unfold cel.Evaluate
  split
  · simp
  · exact evalPrograms_reason_ne_empty _ _ _

/-- Every branch of the authorizer pipeline returns a non-empty reason. -/
theorem processRequest_reason_ne_empty (a : auth.Authorizer)
    (sar : authorizationv1.SubjectAccessReview) : (auth.ProcessRequest a sar).2 ≠ "" := by
  unfold auth.ProcessRequest
  split
  · exact evaluate_reason_ne_empty _ _
  · split
    · simp
    · split
      · simp
      · split
        · split
          · exact str_append_ne_empty _ _ (str_append_ne_empty _ _ (by decide))
          · split
            · exact str_append_ne_empty _ _ (str_append_ne_empty _ _ (by decide))
            · exact str_append_ne_empty _ _
                (str_append_ne_empty _ _
                  (str_append_ne_empty _ _
                    (str_append_ne_empty _ _
                      (str_append_ne_empty _ _ (str_append_ne_empty _ _ (by decide))))))
        · simp

/-- The "Denied" field is by construction the negation of "Allowed". -/
theorem handleAuthorize_denied_negation (a : auth.Authorizer)
    (sar : authorizationv1.SubjectAccessReview) :
    (server.handleAuthorizeStatus a sar).Denied = !(server.handleAuthorizeStatus a sar).Allowed :=
  rfl

/-- In the modelled fragment, every expression that references a variable
whose lookup fails evaluates to an error: no operator of the fragment
discards a subterm's error. -/
theorem evalCel_error_of_unboundVar (vars : cel.Activation) (n : String)
    (hl : ∃ msg, cel.lookupVar vars n = Except.error msg) :
    ∀ e : cel.CelExpr, cel.mentionsVar e n = true →
    ∃ msg, cel.evalCel vars e = Except.error msg := by
  intro e
  induction e with
  | varName m =>
    intro hm
    simp only [cel.mentionsVar] at hm
    have hmn : m = n := by simpa using hm
    subst hmn
    simpa [cel.evalCel] using hl
  | intLit k =>
    intro hm
    simp [cel.mentionsVar] at hm
  | size e ih =>
    intro hm
    simp only [cel.mentionsVar] at hm
    obtain ⟨msg, hmsg⟩ := ih hm
    exact ⟨msg, by simp [cel.evalCel, hmsg]⟩
  | eqExpr a b iha ihb =>
    intro hm
    simp only [cel.mentionsVar, Bool.or_eq_true] at hm
    cases hm with
    | inl ha =>
      obtain ⟨msg, hmsg⟩ := iha ha
      exact ⟨msg, by simp [cel.evalCel, hmsg]⟩
    | inr hb =>
      obtain ⟨msgb, hmsgb⟩ := ihb hb
      cases hae : cel.evalCel vars a with
      | error msga => exact ⟨msga, by simp [cel.evalCel, hae]⟩
      | ok va => exact ⟨msgb, by simp [cel.evalCel, hae, hmsgb]⟩

/-- A rule that evaluates with a runtime error, all rules before it
passing, decides Evaluate with the index-qualified error denial. -/
theorem evaluate_error_at (e : cel.Evaluator)
    (sar : authorizationv1.SubjectAccessReview)
    (pre post : List cel.Program) (p : cel.Program) (msg : String)
    (hsplit : e.programs = pre ++ p :: post)
    (hpre : ∀ q ∈ pre, q (cel.mkVars sar) = Except.ok (cel.CelValue.bool true))
    (herr : p (cel.mkVars sar) = Except.error msg) :
    cel.Evaluate e sar = (false, "Error evaluating CEL rule " ++ toString pre.length) := by
  have hlen : ¬ e.programs.length = 0 := by
    rw [hsplit]; simp
  have hloop : cel.Evaluate e sar =
      cel.evalPrograms (cel.mkVars sar) (p :: post) pre.length := by
    unfold cel.Evaluate
    rw [if_neg hlen, hsplit, evalPrograms_passed _ _ _ 0 hpre, Nat.zero_add]
  rw [hloop]
  simp [cel.evalPrograms, herr]

end Helpers

/-- Claim C2: stage ordering — for a request that fails a compiled CEL rule
and also matches a built-in guard (an impersonation guard or the delete
gate's deny branch), ProcessRequest reports the custom-rule denial reason,
not the guard's reason: custom-rule evaluation runs strictly before every
built-in stage. -/
theorem customRules_precede_builtin_guards (a : auth.Authorizer)
    (sar : authorizationv1.SubjectAccessReview) (r : String)
    (heval : cel.Evaluate a.celEval sar = (false, r))
    (_hguard :
      auth.isMastersImpersonation sar.Spec.ResourceAttributes = true ∨
      auth.isDirectMastersImpersonation sar.Spec.NonResourceAttributes = true ∨
      (auth.isProtectedDelete a.config sar.Spec.ResourceAttributes = true ∧
        sar.Spec.User ≠ a.config.PrivilegedUser ∧
        sar.Spec.Groups.contains "system:masters" = false)) :
    auth.ProcessRequest a sar = (false, r) := by
  simp [auth.ProcessRequest, heval]

/-- Witness for C2: a request matching the indirect-impersonation guard,
evaluated under an always-false rule, is denied with the rule's reason. -/
theorem customRules_precede_builtin_guards_witness :
    auth.ProcessRequest authDenyRule sarImpersonatePrivileged =
      (false, "Request denied by CEL rule 0") :=
  customRules_precede_builtin_guards authDenyRule sarImpersonatePrivileged
    "Request denied by CEL rule 0" (by rfl) (Or.inl (by rfl))

/-- Claim C6: the indirect impersonation guard — when resource attributes
carry group "authentication.k8s.io", resource "userextras", subresource
"groups" and name "system:masters", and the CEL stage passes, the request
is denied with the impersonation reason for every user and group list. -/
theorem indirect_impersonation_guard (a : auth.Authorizer)
    (sar : authorizationv1.SubjectAccessReview)
    (ra : authorizationv1.ResourceAttributes)
    (heval : (cel.Evaluate a.celEval sar).1 = true)
    (hra : sar.Spec.ResourceAttributes = some ra)
    (hgroup : ra.Group = "authentication.k8s.io")
    (hres : ra.Resource = "userextras")
    (hsub : ra.Subresource = "groups")
    (hname : ra.Name = "system:masters") :
    auth.ProcessRequest a sar =
      (false, "Impersonation of system:masters group is not allowed") := by
  have hguard : auth.isMastersImpersonation sar.Spec.ResourceAttributes = true := by
    simp [auth.isMastersImpersonation, hra, hgroup, hres, hsub, hname]
  simp [auth.ProcessRequest, heval, hguard]

/-- Witness for C6: the guard fires even for the privileged user "admin"
who is a member of "system:masters". -/
theorem indirect_impersonation_guard_witness :
    auth.ProcessRequest authTest sarImpersonatePrivileged =
      (false, "Impersonation of system:masters group is not allowed") ∧
    sarImpersonatePrivileged.Spec.User = authTest.config.PrivilegedUser ∧
    sarImpersonatePrivileged.Spec.Groups.contains "system:masters" = true :=
  ⟨indirect_impersonation_guard authTest sarImpersonatePrivileged
      raImpersonateCreate rfl rfl rfl rfl rfl rfl, rfl, rfl⟩

/-- Claim C7: the direct impersonation guard — when non-resource attributes
are present with a path containing "/groups/system:masters", the CEL stage
passes and the indirect guard does not fire, the request is denied with the
direct-impersonation reason regardless of user, groups, or the verb. -/
theorem direct_impersonation_guard (a : auth.Authorizer)
    (sar : authorizationv1.SubjectAccessReview)
    (nra : authorizationv1.NonResourceAttributes)
    (heval : (cel.Evaluate a.celEval sar).1 = true)
    (hg1 : auth.isMastersImpersonation sar.Spec.ResourceAttributes = false)
    (hnra : sar.Spec.NonResourceAttributes = some nra)
    (hpath : auth.containsSubstr nra.Path "/groups/system:masters" = true) :
    auth.ProcessRequest a sar =
      (false, "Direct impersonation of system:masters group is not allowed") := by
  have hguard : auth.isDirectMastersImpersonation sar.Spec.NonResourceAttributes = true := by
    simp only [auth.isDirectMastersImpersonation, hnra]
    exact hpath
  simp [auth.ProcessRequest, heval, hg1, hguard]

/-- Witness for C7: the kubelet-style path triggers the guard for the
privileged user. -/
theorem direct_impersonation_guard_witness :
    auth.ProcessRequest authTest sarDirectImpersonate =
      (false, "Direct impersonation of system:masters group is not allowed") :=
  direct_impersonation_guard authTest sarDirectImpersonate
    { Path := "/api/v1/users/~/groups/system:masters", Verb := "impersonate" }
    rfl rfl rfl (by decide)

/-- Claim C8: default allow — with an empty compiled rule list, neither
impersonation guard matching, and the delete gate's entry condition not
met, ProcessRequest allows with the default reason. -/
theorem default_allow (a : auth.Authorizer)
    (sar : authorizationv1.SubjectAccessReview)
    (hrules : a.celEval.programs = [])
    (hg1 : auth.isMastersImpersonation sar.Spec.ResourceAttributes = false)
    (hg2 : auth.isDirectMastersImpersonation sar.Spec.NonResourceAttributes = false)
    (hg3 : auth.isProtectedDelete a.config sar.Spec.ResourceAttributes = false) :
    auth.ProcessRequest a sar = (true, "Request allowed by authorization webhook") := by
  have heval : cel.Evaluate a.celEval sar = (true, "No CEL rules configured") := by
    simp [cel.Evaluate, hrules]
  simp [auth.ProcessRequest, heval, hg1, hg2, hg3]

/-- Witness for C8: a plain request under the rule-less test authorizer. -/
theorem default_allow_witness :
    auth.ProcessRequest authTest sarPlain =
      (true, "Request allowed by authorization webhook") :=
  default_allow authTest sarPlain rfl rfl rfl rfl

/-- Claim C9: response invariant — the response status always carries
"denied" equal to the negation of "allowed", and a non-empty reason. -/
theorem response_invariant (a : auth.Authorizer)
    (sar : authorizationv1.SubjectAccessReview) :
    (server.handleAuthorizeStatus a sar).Denied
        = !(server.handleAuthorizeStatus a sar).Allowed ∧
    (server.handleAuthorizeStatus a sar).Reason ≠ "" :=
  ⟨rfl, processRequest_reason_ne_empty a sar⟩

/-- Claim C10: in the standalone main-package variant, the
indirect-impersonation deny is dead code — its enclosing branch requires
resource "users" while the inner condition requires resource "userextras",
so processAuthRequest never returns the impersonation reason. -/
theorem standalone_impersonation_branch_unreachable (cfg : webhookmain.Config)
    (sar : authorizationv1.SubjectAccessReview) :
    (webhookmain.processAuthRequest cfg sar).2 ≠
      "Impersonation of system:masters group is not allowed" := by
  have hcond : (match sar.Spec.ResourceAttributes with
      | some ra =>
        ra.Resource == "users" && (ra.Verb == "impersonate" || ra.Verb == "create") &&
          (ra.Group == "authentication.k8s.io" && ra.Resource == "userextras" &&
            ra.Subresource == "groups" && auth.containsSubstr ra.Name "system:masters")
      | none => false) = false := by
    cases hra : sar.Spec.ResourceAttributes with
    | none => rfl
    | some ra =>
      by_cases h : ra.Resource = "users"
      · simp [h]
      · simp [h]
  unfold webhookmain.processAuthRequest
  rw [hcond]
  simp only [Bool.false_eq_true, if_false]
  split
  · decide
  · split
    · split
      · split
        · simp only [String.append_assoc]
          exact userReason_ne_impersonation _
        · split
          · simp only [String.append_assoc]
            exact userReason_ne_impersonation _
          · decide
      · decide
    · decide

/-- Claim C1 counterexample: the delete gate is not reached whenever an
impersonation guard matches. Under the prefix configuration "system:" and
privileged user "admin", the request `sarGateCex` satisfies every premise
of the claim — resource attributes present, verb "delete", name starting
with the protected prefix, all compiled rules passing (there are none), and
user equal to the privileged user — yet ProcessRequest denies with the
impersonation reason instead of allowing with the privileged-user reason. -/
theorem protectedDelete_gate_not_unconditional :
    auth.isProtectedDelete authSystem.config sarGateCex.Spec.ResourceAttributes = true ∧
    sarGateCex.Spec.User = authSystem.config.PrivilegedUser ∧
    (cel.Evaluate authSystem.celEval sarGateCex).1 = true ∧
    auth.ProcessRequest authSystem sarGateCex =
      (false, "Impersonation of system:masters group is not allowed") ∧
    auth.ProcessRequest authSystem sarGateCex ≠
      (true, "User 'admin' is authorized to delete protected resources as a privileged user") := by
  refine ⟨by decide, rfl, rfl, by decide, by decide⟩

/-- Claim C1 (amended): the protected-resource delete gate — for every
request with resource attributes present, verb "delete", name starting
with the protected prefix, every compiled rule passing, and neither
impersonation guard matching: allow with the privileged-user reason when
the user is the privileged user; otherwise allow with the
system:masters-membership reason when "system:masters" is among the
groups; otherwise deny with the reason naming the user, the protected
prefix and the privileged user — so membership in "system:nodes" alone
does not grant the bypass, even though the denial message mentions
system:nodes. -/
theorem protectedDelete_gate_after_guards (a : auth.Authorizer)
    (sar : authorizationv1.SubjectAccessReview)
    (ra : authorizationv1.ResourceAttributes)
    (heval : (cel.Evaluate a.celEval sar).1 = true)
    (hra : sar.Spec.ResourceAttributes = some ra)
    (hverb : ra.Verb = "delete")
    (hname : auth.hasPrefix a.config.ProtectedPrefix ra.Name = true)
    (hg1 : auth.isMastersImpersonation sar.Spec.ResourceAttributes = false)
    (hg2 : auth.isDirectMastersImpersonation sar.Spec.NonResourceAttributes = false) :
    (sar.Spec.User = a.config.PrivilegedUser →
      auth.ProcessRequest a sar = (true, "User '" ++ sar.Spec.User ++
        "' is authorized to delete protected resources as a privileged user")) ∧
    (sar.Spec.User ≠ a.config.PrivilegedUser →
      "system:masters" ∈ sar.Spec.Groups →
      auth.ProcessRequest a sar = (true, "User '" ++ sar.Spec.User ++
        "' is authorized to delete protected resources as a member of system:masters group")) ∧
    (sar.Spec.User ≠ a.config.PrivilegedUser →
      "system:masters" ∉ sar.Spec.Groups →
      auth.ProcessRequest a sar = (false, "User '" ++ sar.Spec.User ++
        "' is not authorized to delete resources with prefix '" ++
        a.config.ProtectedPrefix ++ "'. Only '" ++ a.config.PrivilegedUser ++
        "' users or members of system:masters/system:nodes groups can perform this operation.")) := by
  have hgate : auth.isProtectedDelete a.config sar.Spec.ResourceAttributes = true := by
    simp [auth.isProtectedDelete, hra, hverb, hname]
  refine ⟨?_, ?_, ?_⟩
  · intro hu
    simp [auth.ProcessRequest, heval, hg1, hg2, hgate, hu]
  · intro hu hm
    simp [auth.ProcessRequest, heval, hg1, hg2, hgate, hu, hm]
  · intro hu hm
    simp [auth.ProcessRequest, heval, hg1, hg2, hgate, hu, hm]

/-- Witness for the amended C1: a delete of "test-prefix-resource" by
"regular-user", whose only group is "system:nodes", is denied with the
full wording that mentions system:nodes. -/
theorem protectedDelete_gate_after_guards_witness :
    auth.ProcessRequest authTest sarNodesDelete =
      (false, "User 'regular-user' is not authorized to delete resources with prefix 'test-prefix-'. Only 'admin' users or members of system:masters/system:nodes groups can perform this operation.") :=
  (protectedDelete_gate_after_guards authTest sarNodesDelete raNodesDelete
      rfl rfl rfl rfl rfl rfl).2.2 (by decide) (by decide)

/-- Claim C3: fail-closed rule evaluation — with the compiled rule list
split as `pre ++ p :: post` where every rule of `pre` passes, the verdict
of Evaluate is decided at `p` (rules of `post` are irrelevant): a `false`
result, an evaluation error, and a non-boolean result each deny
immediately with the 0-based index of `p` under the three distinct
wordings; no error escapes and no failure allows. -/
theorem evaluate_failClosed (e : cel.Evaluator)
    (sar : authorizationv1.SubjectAccessReview)
    (pre post : List cel.Program) (p : cel.Program)
    (hsplit : e.programs = pre ++ p :: post)
    (hpre : ∀ q ∈ pre, q (cel.mkVars sar) = Except.ok (cel.CelValue.bool true)) :
    (p (cel.mkVars sar) = Except.ok (cel.CelValue.bool false) →
      cel.Evaluate e sar = (false, "Request denied by CEL rule " ++ toString pre.length)) ∧
    (∀ msg, p (cel.mkVars sar) = Except.error msg →
      cel.Evaluate e sar = (false, "Error evaluating CEL rule " ++ toString pre.length)) ∧
    (∀ v, p (cel.mkVars sar) = Except.ok v → (∀ b, v ≠ cel.CelValue.bool b) →
      cel.Evaluate e sar = (false, "Invalid result from CEL rule " ++ toString pre.length)) := by
  have hlen : ¬ e.programs.length = 0 := by
    rw [hsplit]; simp
  have hloop : cel.Evaluate e sar =
      cel.evalPrograms (cel.mkVars sar) (p :: post) pre.length := by
    unfold cel.Evaluate
    rw [if_neg hlen, hsplit, evalPrograms_passed _ _ _ 0 hpre, Nat.zero_add]
  refine ⟨?_, ?_, ?_⟩
  · intro hp
    rw [hloop]
    simp [cel.evalPrograms, hp]
  · intro msg hp
    rw [hloop]
    simp [cel.evalPrograms, hp]
  · intro v hp hnb
    rw [hloop]
    cases v with
    | bool b => exact absurd rfl (hnb b)
    | int n => simp [cel.evalPrograms, hp]
    | str s => simp [cel.evalPrograms, hp]
    | strList l => simp [cel.evalPrograms, hp]
    | strMap m => simp [cel.evalPrograms, hp]

/-- Witness for C3: in the evaluator whose rules are pass, deny, error,
non-boolean, the verdict is decided by the always-false rule at index 1 —
the error and non-boolean rules after it are never consulted. -/
theorem evaluate_failClosed_witness :
    cel.Evaluate evalMix sarPlain = (false, "Request denied by CEL rule 1") :=
  (evaluate_failClosed evalMix sarPlain [truePrg] [errPrg, strPrg] falsePrg rfl
      (by intro q hq; rw [List.mem_singleton] at hq; subst hq; rfl)).1 rfl

/-- Claim C4 counterexample: on the concrete request `sarPlain`, which has
no `resourceAttributes`, the bindings built by the source leave the
variable unbound (not bound to an empty map as the claim states), while the
spec-claimed binding would map it to the empty map, under which the rule
`size(resourceAttributes) == 0` evaluates to `true`; instead, Evaluate
turns the missing-attribute error into the "Error evaluating CEL rule 0"
denial. -/
theorem absent_attributes_not_empty_map :
    (cel.mkVars sarPlain).resourceAttributes = none ∧
    (cel.mkVarsSpecClaim sarPlain).resourceAttributes = some [] ∧
    cel.evalCel (cel.mkVarsSpecClaim sarPlain) cel.ruleSizeRA =
      Except.ok (cel.CelValue.bool true) ∧
    cel.Evaluate raRefEvaluator sarPlain = (false, "Error evaluating CEL rule 0") :=
  ⟨rfl, rfl, rfl, rfl⟩

/-- Claim C4 (amended): absent-block binding — for every request in which
`resourceAttributes` (respectively `nonResourceAttributes`) is absent, the
bindings built by Evaluate leave that variable unbound rather than bound
to an empty map, and any compiled rule of the modelled fragment that
references that variable — at any position `i` of the rule list, all
earlier rules passing — produces a missing-attribute evaluation error
under the modelled cel-go semantics, which Evaluate converts into the
index-qualified "Error evaluating CEL rule i" denial. -/
theorem absent_attributes_left_unbound (e : cel.Evaluator)
    (sar : authorizationv1.SubjectAccessReview)
    (pre post : List cel.Program) (expr : cel.CelExpr) :
    (sar.Spec.ResourceAttributes = none →
      (cel.mkVars sar).resourceAttributes = none ∧
      (cel.mentionsVar expr "resourceAttributes" = true →
        e.programs = pre ++ cel.celProgram expr :: post →
        (∀ q ∈ pre, q (cel.mkVars sar) = Except.ok (cel.CelValue.bool true)) →
        cel.Evaluate e sar =
          (false, "Error evaluating CEL rule " ++ toString pre.length))) ∧
    (sar.Spec.NonResourceAttributes = none →
      (cel.mkVars sar).nonResourceAttributes = none ∧
      (cel.mentionsVar expr "nonResourceAttributes" = true →
        e.programs = pre ++ cel.celProgram expr :: post →
        (∀ q ∈ pre, q (cel.mkVars sar) = Except.ok (cel.CelValue.bool true)) →
        cel.Evaluate e sar =
          (false, "Error evaluating CEL rule " ++ toString pre.length))) := by
  constructor
  · intro hra
    have hmk : (cel.mkVars sar).resourceAttributes = none := by
      simp [cel.mkVars, hra]
    refine ⟨hmk, ?_⟩
    intro hmention hsplit hpre
    have hl : ∃ msg, cel.lookupVar (cel.mkVars sar) "resourceAttributes" =
        Except.error msg := by
      refine ⟨"no such attribute(s): resourceAttributes", ?_⟩
      simp [cel.lookupVar, hmk]
    obtain ⟨msg, herr⟩ :=
      evalCel_error_of_unboundVar (cel.mkVars sar) "resourceAttributes" hl expr hmention
    exact evaluate_error_at e sar pre post (cel.celProgram expr) msg hsplit hpre herr
  · intro hnra
    have hmk : (cel.mkVars sar).nonResourceAttributes = none := by
      simp [cel.mkVars, hnra]
    refine ⟨hmk, ?_⟩
    intro hmention hsplit hpre
    have hl : ∃ msg, cel.lookupVar (cel.mkVars sar) "nonResourceAttributes" =
        Except.error msg := by
      refine ⟨"no such attribute(s): nonResourceAttributes", ?_⟩
      simp [cel.lookupVar, hmk]
    obtain ⟨msg, herr⟩ :=
      evalCel_error_of_unboundVar (cel.mkVars sar) "nonResourceAttributes" hl expr hmention
    exact evaluate_error_at e sar pre post (cel.celProgram expr) msg hsplit hpre herr

/-- Witness for the amended C4 at the concrete request `sarPlain`, which
has neither attribute block: the resourceAttributes-referencing rule at
index 0 and the nonResourceAttributes-referencing rule at index 1 (after a
passing rule) each turn into the index-qualified error denial. -/
theorem absent_attributes_left_unbound_witness :
    (cel.mkVars sarPlain).resourceAttributes = none ∧
    cel.Evaluate raRefEvaluator sarPlain = (false, "Error evaluating CEL rule 0") ∧
    (cel.mkVars sarPlain).nonResourceAttributes = none ∧
    cel.Evaluate nraRefEvaluator sarPlain = (false, "Error evaluating CEL rule 1") := by
  have h1 := (absent_attributes_left_unbound raRefEvaluator sarPlain
    [] [] cel.ruleSizeRA).1 rfl
  have h2 := (absent_attributes_left_unbound nraRefEvaluator sarPlain
    [truePrg] [] cel.ruleSizeNRA).2 rfl
  refine ⟨h1.1, ?_, h2.1, ?_⟩
  · exact h1.2 rfl rfl (fun q hq => absurd hq (List.not_mem_nil q))
  · exact h2.2 rfl rfl
      (by intro q hq; rw [List.mem_singleton] at hq; subst hq; rfl)

/-- When every non-empty rule compiles, compileRules collects, in source
order, the programs of exactly the non-empty rules. -/
theorem compileRules_all_ok (env : cel.Env) (f : String → cel.Program) :
    ∀ rules : List String,
    (∀ r ∈ rules, ¬ r = "" → cel.compileOne env r = Except.ok (f r)) →
    cel.compileRules env rules =
      Except.ok ((rules.filter (fun r => !(r == ""))).map f) := by
  intro rules
  induction rules with
  | nil => intro _; rfl
  | cons rule rest ih =>
    intro h
    have hrest := ih (fun r hm hne => h r (List.mem_cons_of_mem _ hm) hne)
    by_cases hr : rule = ""
    · subst hr
      simp [cel.compileRules, hrest, List.filter_cons]
    · have hc := h rule (List.mem_cons_self _ _) hr
      simp [cel.compileRules, hr, hc, hrest, List.filter_cons]

/-- A failing compileOne always reports a message containing the rule
text. -/
theorem compileOne_error_mentions_rule (env : cel.Env) (rule msg : String)
    (h : cel.compileOne env rule = Except.error msg) :
    ∃ a b, msg = a ++ rule ++ b := by
  unfold cel.compileOne at h
  split at h
  · rename_i e heq
    simp only [Except.error.injEq] at h
    exact ⟨"failed to compile CEL rule '", "': " ++ e,
      by rw [← h, String.append_assoc]⟩
  · split at h
    · rename_i e heq
      simp only [Except.error.injEq] at h
      exact ⟨"failed to create program for rule '", "': " ++ e,
        by rw [← h, String.append_assoc]⟩
    · simp at h

/-- A compilation error is preserved under prepending rules that are empty
or compile successfully. -/
theorem compileRules_error_extend (env : cel.Env) :
    ∀ pre : List String,
    (∀ q ∈ pre, ¬ q = "" → ∃ prg, cel.compileOne env q = Except.ok prg) →
    ∀ l msg, cel.compileRules env l = Except.error msg →
    cel.compileRules env (pre ++ l) = Except.error msg := by
  intro pre
  induction pre with
  | nil => intro _ l msg h; simpa using h
  | cons q qs ih =>
    intro h l msg hl
    have hrec := ih (fun r hm hne => h r (List.mem_cons_of_mem _ hm) hne) l msg hl
    rw [List.cons_append]
    by_cases hq : q = ""
    · subst hq
      simp [cel.compileRules, hrec]
    · obtain ⟨prg, hprg⟩ := h q (List.mem_cons_self _ _) hq
      simp [cel.compileRules, hq, hprg, hrec]

/-- A non-empty rule that fails to compile at the head of the list aborts
compileRules with its error. -/
theorem compileRules_error_head (env : cel.Env) (r : String) (post : List String)
    (msg : String) (hr : ¬ r = "") (h : cel.compileOne env r = Except.error msg) :
    cel.compileRules env (r :: post) = Except.error msg := by
  simp [cel.compileRules, hr, h]

/-- Claim C5: compilation contract — empty expression strings are skipped,
producing no compiled rule and no error and preserving the order of the
remaining rules; and if some non-empty expression fails to compile (all
earlier non-empty ones compiling), NewEvaluator returns an error whose
message contains that expression's text and produces no evaluator. -/
theorem newEvaluator_compilation_contract (env : cel.Env) (rules : List String) :
    (∀ f : String → cel.Program,
      (∀ r ∈ rules, ¬ r = "" → cel.compileOne env r = Except.ok (f r)) →
      cel.NewEvaluator env rules =
        Except.ok { programs := (rules.filter (fun r => !(r == ""))).map f }) ∧
    (∀ pre r post msg, rules = pre ++ r :: post → ¬ r = "" →
      cel.compileOne env r = Except.error msg →
      (∀ q ∈ pre, ¬ q = "" → ∃ prg, cel.compileOne env q = Except.ok prg) →
      ∃ a b, cel.NewEvaluator env rules = Except.error (a ++ r ++ b)) := by
  constructor
  · intro f hf
    unfold cel.NewEvaluator
    rw [compileRules_all_ok env f rules hf]
  · intro pre r post msg hsplit hr hcomp hpre
    have h1 : cel.compileRules env (r :: post) = Except.error msg :=
      compileRules_error_head env r post msg hr hcomp
    have h2 : cel.compileRules env rules = Except.error msg := by
      rw [hsplit]
      exact compileRules_error_extend env pre hpre (r :: post) msg h1
    obtain ⟨a, b, hab⟩ := compileOne_error_mentions_rule env r msg hcomp
    refine ⟨"failed to compile CEL rules: " ++ a, b, ?_⟩
    unfold cel.NewEvaluator
    rw [h2]
    simp only [hab, String.append_assoc]

/-- Witness for C5 against the concrete environment `modelEnv`: the empty
string is skipped and the one valid rule compiles in order; a list holding
an invalid rule is rejected with a message containing its text. -/
theorem newEvaluator_compilation_contract_witness :
    cel.NewEvaluator modelEnv ["", "size(resourceAttributes) == 0"] =
      Except.ok { programs := [cel.celProgram cel.ruleSizeRA] } ∧
    (∃ a b, cel.NewEvaluator modelEnv ["", "bad rule"] =
      Except.error (a ++ "bad rule" ++ b)) := by
  constructor
  · have hyp : ∀ r ∈ ["", "size(resourceAttributes) == 0"], ¬ r = "" →
        cel.compileOne modelEnv r =
          Except.ok ((fun _ => cel.celProgram cel.ruleSizeRA) r) := by
      intro r hr hne
      simp only [List.mem_cons, List.not_mem_nil, or_false] at hr
      rcases hr with hr | hr
      · exact absurd hr hne
      · subst hr; rfl
    exact (newEvaluator_compilation_contract modelEnv
      ["", "size(resourceAttributes) == 0"]).1
      (fun _ => cel.celProgram cel.ruleSizeRA) hyp
  · exact (newEvaluator_compilation_contract modelEnv ["", "bad rule"]).2
      [""] "bad rule" []
      "failed to compile CEL rule 'bad rule': Syntax error: token recognition error"
      rfl (by decide) rfl
      (by intro q hq hne; rw [List.mem_singleton] at hq; subst hq; exact absurd rfl hne)
